import Mathlib

/-!
Verification development for the voice-loop turn pipeline
(`mina_windows_loop.py`).  Strings are modelled as `List Char`; each
definition below is a direct translation of the corresponding Python
function or inline code in `main`.
-/

/-- The set of characters Python treats as whitespace for `str.strip`,
`str.split` and the regex class `\s` on `str` patterns. -/
def isPySpace (c : Char) : Bool :=
  c.toNat == 32 || (9 ≤ c.toNat && c.toNat ≤ 13) ||
  (28 ≤ c.toNat && c.toNat ≤ 31) || c.toNat == 133 || c.toNat == 160 ||
  c.toNat == 0x1680 || (0x2000 ≤ c.toNat && c.toNat ≤ 0x200a) ||
  c.toNat == 0x2028 || c.toNat == 0x2029 || c.toNat == 0x202f ||
  c.toNat == 0x205f || c.toNat == 0x3000

/-- Case-insensitive match of one pattern character (`flags=re.I` on an
ASCII-lowercase literal): the subject char matches if it is the pattern
char itself or an ASCII uppercase letter whose lowercase is the pattern. -/
def charMatchesCI (pat c : Char) : Bool :=
  c == pat || (65 ≤ c.toNat && c.toNat ≤ 90 && c.toNat + 32 == pat.toNat)

/-- Match a literal pattern (case-insensitively) at the head of the
subject, returning the remainder on success. -/
def matchLit : List Char → List Char → Option (List Char)
  | [], s => some s
  | _ :: _, [] => none
  | p :: ps, c :: cs => if charMatchesCI p c then matchLit ps cs else none

/-- The literal body of the reply-tag regex `\[\[\s*reply_to[^\]]*\]\]`. -/
def replyLit : List Char := ['r', 'e', 'p', 'l', 'y', '_', 't', 'o']

/-- Consume `[^\]]*` then require the closing `]]`, returning the
remainder after the match. -/
def skipToRBrackets : List Char → Option (List Char)
  | [] => none
  | ']' :: ']' :: rest => some rest
  | ']' :: _ => none
  | _ :: cs => skipToRBrackets cs

/-- Try to match the tag regex `\[\[\s*reply_to[^\]]*\]\]` (with
`flags=re.I`) at the head of the subject, returning the rest on success. -/
def matchReplyTag : List Char → Option (List Char)
  | '[' :: '[' :: rest =>
      match matchLit replyLit (rest.dropWhile isPySpace) with
      | some r2 => skipToRBrackets r2
      | none => none
  | _ => none

/-- Fuel-driven left-to-right scan deleting every non-overlapping match
of the reply-tag regex, as `re.sub` does. -/
def removeTagsFuel : Nat → List Char → List Char
  | _, [] => []
  | 0, l => l
  | Nat.succ n, c :: cs =>
      match matchReplyTag (c :: cs) with
      | some rest => removeTagsFuel n rest
      | none => c :: removeTagsFuel n cs

/-- `re.sub(r"\[\[\s*reply_to[^\]]*\]\]", "", text, flags=re.I)`. -/
def removeReplyTags (text : List Char) : List Char :=
  removeTagsFuel text.length text

/-- Membership in the regex character class of markdown punctuation
removed by `clean_text`. -/
def isMarkdownChar (c : Char) : Bool :=
  c.toNat == 96 || c == '*' || c == '_' || c == '#' || c == '>' || c == '~'

/-- `re.sub(r"[`*_#>~]", "", t)`. -/
def stripMarkdown (t : List Char) : List Char :=
  t.filter (fun c => !isMarkdownChar c)

/-- `t.replace(a, r)` for a single-character needle `a`. -/
def replaceChar (a : Char) (r : List Char) : List Char → List Char
  | [] => []
  | c :: cs => (if c = a then r else [c]) ++ replaceChar a r cs

/-- `re.sub(r"\s+", " ", t)`: each maximal run of whitespace becomes a
single space. -/
def collapseWs : List Char → List Char
  | [] => []
  | [c] => if isPySpace c then [' '] else [c]
  | c :: d :: cs =>
      if isPySpace c then
        (if isPySpace d then collapseWs (d :: cs) else ' ' :: collapseWs (d :: cs))
      else c :: collapseWs (d :: cs)

/-- `t.strip()`: drop leading and trailing whitespace. -/
def stripPy (l : List Char) : List Char :=
  ((l.dropWhile isPySpace).reverse.dropWhile isPySpace).reverse

/-- `clean_text` from `mina_windows_loop.py`: remove reply tags, strip
markdown punctuation, replace newline with space and each dash with a
comma-space, collapse whitespace runs and trim. -/
def clean_text (text : List Char) : List Char :=
  stripPy (collapseWs (replaceChar '–' [',', ' ']
    (replaceChar '—' [',', ' ']
      (replaceChar '\n' [' '] (stripMarkdown (removeReplyTags text))))))

/-- `strip_emoji`: `re.sub(r"[\U00010000-\U0010ffff]", "", text)` keeps
exactly the Basic Multilingual Plane characters. -/
def strip_emoji (text : List Char) : List Char :=
  text.filter (fun c => decide (c.toNat < 65536))

/-- `reply.encode("ascii", "ignore").decode("ascii")`: drop every
non-ASCII character. -/
def asciiDrop (text : List Char) : List Char :=
  text.filter (fun c => decide (c.toNat ≤ 127))

/-- Lines 195-196 of `main`: `strip_emoji(clean_text(reply))` then the
ASCII coercion. -/
def normalize_reply (reply : List Char) : List Char :=
  asciiDrop (strip_emoji (clean_text reply))

/-- One payload entry of the JSON response of the agent (`p.get("text")`). -/
structure Payload where
  text : Option (List Char)
deriving DecidableEq

/-- The `result` object of the JSON response of the agent. -/
structure ResultObj where
  payloads : Option (List Payload)
deriving DecidableEq

/-- The decoded agent response (`data.get("result")`). -/
structure AgentData where
  result : Option ResultObj
deriving DecidableEq

/-- The fixed fallback reply from line 192 of `main`. -/
def fallbackReply : List Char :=
  "I heard you, but I don\x27t have a reply yet.".toList

/-- `((data.get("result") or {}).get("payloads") or [])`. -/
def payloadsOf (d : AgentData) : List Payload :=
  match d.result with
  | none => []
  | some r => r.payloads.getD []

/-- `(p.get("text") or "").strip()`. -/
def entryText (p : Payload) : List Char := stripPy (p.text.getD [])

/-- Lines 186-192 of `main`: the first payload whose stripped text is
non-empty, else the fallback string. -/
def select_reply (d : AgentData) : List Char :=
  match (payloadsOf d).find? (fun p => !(entryText p).isEmpty) with
  | some p => entryText p
  | none => fallbackReply

/-- Reply selection as worded in the spec: scan the payload list in
order for the first entry whose text is non-empty after trimming and
select the trimmed text; otherwise select the fallback string.  Used
only to compare against `select_reply`, which is translated from the
code. -/
def selectReplySpec : List Payload → List Char
  | [] => fallbackReply
  | p :: ps => if (entryText p).isEmpty then selectReplySpec ps else entryText p

/-- The character class `[a-zA-Z0-9]` from the quality gate. -/
def isAsciiAlnum (c : Char) : Bool :=
  (97 ≤ c.toNat && c.toNat ≤ 122) || (65 ≤ c.toNat && c.toNat ≤ 90) ||
  (48 ≤ c.toNat && c.toNat ≤ 57)

/-- Accumulator pass behind `pySplit`. -/
def pySplitAux : List Char → List Char → List (List Char)
  | [], acc => if acc.isEmpty then [] else [acc.reverse]
  | c :: cs, acc =>
      if isPySpace c then
        (if acc.isEmpty then pySplitAux cs [] else acc.reverse :: pySplitAux cs [])
      else pySplitAux cs (c :: acc)

/-- `text.split()`: whitespace-delimited tokens, no empty tokens. -/
def pySplit (l : List Char) : List (List Char) := pySplitAux l []

/-- Lines 151-159 of `main`: the transcript quality gates, as the
single condition under which the turn is aborted. -/
def quality_reject (text : List Char) : Bool :=
  text.isEmpty || !(text.any isAsciiAlnum) || decide ((pySplit text).length < 2)

/-- The `subprocess.run` result of the WSL bridge call. -/
structure BridgeResult where
  returncode : Int
  stdout : List Char
  stderr : List Char
deriving DecidableEq

/-- Observable actions of one turn from the bridge call onward
(lines 167-205 of `main`). -/
inductive TurnStep where
  | reportBridgeFailure (diag : List Char)
  | reportEmptyStdout (diag : List Char)
  | reportMalformed (outSnip errSnip : List Char)
  | synthesize (text : List Char)
  | playback
deriving DecidableEq

/-- What the loop does after the turn: go on to the next user cue or
shut down. -/
inductive LoopCtl where
  | next
  | shutdown
deriving DecidableEq

/-- `proc.stderr[:1200] if proc.stderr else "(no stderr)"` (line 169). -/
def stderrSnipA (r : BridgeResult) : List Char :=
  if r.stderr.isEmpty then "(no stderr)".toList else r.stderr.take 1200

/-- `proc.stderr[:1200] if proc.stderr else "(none)"` (lines 174, 183). -/
def stderrSnipB (r : BridgeResult) : List Char :=
  if r.stderr.isEmpty then "(none)".toList else r.stderr.take 1200

/-- `spoken = reply[:500]` (line 200). -/
def spokenOf (reply : List Char) : List Char := reply.take 500

/-- Lines 167-205 of `main`, from inspecting the bridge result to the
synthesis and playback calls.  `parse` stands for `json.loads` (returning
`none` on a parse failure); `_synthExit` is the exit status of the
`edge-tts` subprocess, which the code never consults (the call uses
`check=False` and its result is discarded). -/
def turn (parse : List Char → Option AgentData) (r : BridgeResult)
    (_synthExit : Int) : List TurnStep × LoopCtl :=
  if r.returncode ≠ 0 then
    ([TurnStep.reportBridgeFailure (stderrSnipA r)], LoopCtl.next)
  else if r.stdout.isEmpty then
    ([TurnStep.reportEmptyStdout (stderrSnipB r)], LoopCtl.next)
  else
    match parse r.stdout with
    | none =>
        ([TurnStep.reportMalformed (r.stdout.take 1200) (stderrSnipB r)],
          LoopCtl.next)
    | some data =>
        ([TurnStep.synthesize (spokenOf (normalize_reply (select_reply data))),
          TurnStep.playback], LoopCtl.next)

/-- Whether a step is a synthesis or playback invocation. -/
def isSynthOrPlay : TurnStep → Bool
  | TurnStep.synthesize _ => true
  | TurnStep.playback => true
  | _ => false

/-- Whether a step is one of the diagnostic reports. -/
def isReportStep : TurnStep → Bool
  | TurnStep.reportBridgeFailure _ => true
  | TurnStep.reportEmptyStdout _ => true
  | TurnStep.reportMalformed _ _ => true
  | _ => false

/-- Whether the step list of a turn invokes synthesis or playback. -/
def invokesSynthOrPlay (steps : List TurnStep) : Bool :=
  steps.any isSynthOrPlay

/-! ### Helper lemmas about `dropWhile` and `stripPy` -/

theorem dropWhile_decomp (p : Char → Bool) (l : List Char) :
    ∃ t, l = t ++ l.dropWhile p := by
  obtain ⟨t, ht⟩ := List.dropWhile_suffix (l := l) p
  exact ⟨t, ht.symm⟩

theorem mem_of_mem_dropWhile {p : Char → Bool} {l : List Char} {c : Char}
    (h : c ∈ l.dropWhile p) : c ∈ l := by
  obtain ⟨t, ht⟩ := dropWhile_decomp p l
  rw [ht]
  exact List.mem_append_right t h

theorem head_dropWhile_false {p : Char → Bool} :
    ∀ {l : List Char} {c : Char}, (l.dropWhile p).head? = some c → p c = false := by
  intro l
  induction l with
  | nil => intro c h; simp [List.dropWhile] at h
  | cons a as ih =>
      intro c h
      rw [List.dropWhile_cons] at h
      by_cases hp : p a
      · rw [if_pos hp] at h
        exact ih h
      · rw [if_neg hp] at h
        simp at h
        rw [← h]
        exact Bool.eq_false_iff.mpr hp

theorem dropWhile_fix_of_head {p : Char → Bool} {l : List Char}
    (h : ∀ c, l.head? = some c → p c = false) : l.dropWhile p = l := by
  cases l with
  | nil => rfl
  | cons a as =>
      rw [List.dropWhile_cons, if_neg]
      rw [h a rfl]
      simp

theorem dropWhile_idem (p : Char → Bool) (l : List Char) :
    (l.dropWhile p).dropWhile p = l.dropWhile p :=
  dropWhile_fix_of_head (fun _ hc => head_dropWhile_false hc)

theorem dropWhile_length_le (p : Char → Bool) (l : List Char) :
    (l.dropWhile p).length ≤ l.length := by
  obtain ⟨t, ht⟩ := dropWhile_decomp p l
  have hlen := congrArg List.length ht
  simp at hlen
  omega

theorem dropWhile_fix_of_append {p : Char → Bool} {x u : List Char}
    (h : (x ++ u).dropWhile p = x ++ u) : x.dropWhile p = x := by
  cases x with
  | nil => rfl
  | cons c x' =>
      have hc : p c = false := by
        by_contra hpc
        have hpc' : p c = true := by
          cases hh : p c
          · exact absurd hh hpc
          · rfl
        have hlen := congrArg List.length h
        rw [List.cons_append, List.dropWhile_cons, if_pos hpc'] at hlen
        have hle := dropWhile_length_le p (x' ++ u)
        simp [List.length_append] at hlen hle
        omega
      rw [List.dropWhile_cons, if_neg (by simp [hc])]

theorem stripPy_decomp (l : List Char) :
    ∃ t, l.dropWhile isPySpace = stripPy l ++ t := by
  obtain ⟨t, ht⟩ := dropWhile_decomp isPySpace (l.dropWhile isPySpace).reverse
  refine ⟨t.reverse, ?_⟩
  have := congrArg List.reverse ht
  rw [List.reverse_reverse, List.reverse_append] at this
  exact this

theorem mem_of_mem_stripPy {l : List Char} {c : Char} (h : c ∈ stripPy l) :
    c ∈ l := by
  unfold stripPy at h
  rw [List.mem_reverse] at h
  have h2 := mem_of_mem_dropWhile h
  rw [List.mem_reverse] at h2
  exact mem_of_mem_dropWhile h2

theorem stripPy_drop_left (l : List Char) :
    (stripPy l).dropWhile isPySpace = stripPy l := by
  obtain ⟨t, ht⟩ := stripPy_decomp l
  apply dropWhile_fix_of_append (u := t)
  rw [← ht]
  exact dropWhile_idem isPySpace l

theorem stripPy_drop_right (l : List Char) :
    (stripPy l).reverse.dropWhile isPySpace = (stripPy l).reverse := by
  unfold stripPy
  rw [List.reverse_reverse]
  exact dropWhile_idem isPySpace (l.dropWhile isPySpace).reverse

theorem stripPy_eq_self {l : List Char}
    (h1 : l.dropWhile isPySpace = l)
    (h2 : l.reverse.dropWhile isPySpace = l.reverse) : stripPy l = l := by
  unfold stripPy
  rw [h1, h2, List.reverse_reverse]

/-! ### Helper lemmas about `collapseWs` -/

/-- Two adjacent characters are not both whitespace. -/
def noSS (a b : Char) : Prop := isPySpace a = false ∨ isPySpace b = false

theorem noSS_symm {a b : Char} (h : noSS a b) : noSS b a := Or.symm h

theorem collapseWs_cons_cons (c d : Char) (cs : List Char) :
    collapseWs (c :: d :: cs) =
      if isPySpace c then
        (if isPySpace d then collapseWs (d :: cs) else ' ' :: collapseWs (d :: cs))
      else c :: collapseWs (d :: cs) := rfl

theorem collapseWs_head {d : Char} (ds : List Char) (h : isPySpace d = false) :
    (collapseWs (d :: ds)).head? = some d := by
  cases ds with
  | nil => simp [collapseWs, h]
  | cons e es => rw [collapseWs_cons_cons, if_neg (by simp [h])]; rfl

theorem collapseWs_chain' (l : List Char) : List.Chain' noSS (collapseWs l) := by
  induction l with
  | nil => simp [collapseWs]
  | cons c cs ih =>
      cases cs with
      | nil =>
          by_cases h : isPySpace c = true
          · simp [collapseWs, h]
          · simp [collapseWs, h]
      | cons d ds =>
          rw [collapseWs_cons_cons]
          by_cases hc : isPySpace c = true
          · rw [if_pos hc]
            by_cases hd : isPySpace d = true
            · rw [if_pos hd]; exact ih
            · rw [if_neg hd]
              rw [List.chain'_cons']
              refine ⟨?_, ih⟩
              intro y hy
              rw [collapseWs_head ds (Bool.eq_false_iff.mpr hd)] at hy
              simp at hy
              exact Or.inr (by rw [← hy]; exact Bool.eq_false_iff.mpr hd)
          · rw [if_neg hc]
            rw [List.chain'_cons']
            exact ⟨fun y _ => Or.inl (Bool.eq_false_iff.mpr hc), ih⟩

theorem collapseWs_space_mem (l : List Char) :
    ∀ c ∈ collapseWs l, isPySpace c = true → c = ' ' := by
  induction l with
  | nil => intro c hc; simp [collapseWs] at hc
  | cons a as ih =>
      cases as with
      | nil =>
          intro c hc hsp
          by_cases h : isPySpace a = true
          · simp [collapseWs, h] at hc; exact hc
          · simp [collapseWs, h] at hc
            rw [hc] at hsp
            exact absurd hsp h
      | cons d ds =>
          intro c hc hsp
          rw [collapseWs_cons_cons] at hc
          by_cases ha : isPySpace a = true
          · rw [if_pos ha] at hc
            by_cases hd : isPySpace d = true
            · rw [if_pos hd] at hc; exact ih c hc hsp
            · rw [if_neg hd] at hc
              rcases List.mem_cons.mp hc with h1 | h1
              · exact h1
              · exact ih c h1 hsp
          · rw [if_neg ha] at hc
            rcases List.mem_cons.mp hc with h1 | h1
            · rw [h1] at hsp; exact absurd hsp ha
            · exact ih c h1 hsp

theorem collapseWs_mem {l : List Char} {c : Char} (h : c ∈ collapseWs l) :
    c ∈ l ∨ c = ' ' := by
  induction l with
  | nil => simp [collapseWs] at h
  | cons a as ih =>
      cases as with
      | nil =>
          by_cases ha : isPySpace a = true
          · simp [collapseWs, ha] at h; exact Or.inr h
          · simp [collapseWs, ha] at h; exact Or.inl (by simp [h])
      | cons d ds =>
          rw [collapseWs_cons_cons] at h
          by_cases ha : isPySpace a = true
          · rw [if_pos ha] at h
            by_cases hd : isPySpace d = true
            · rw [if_pos hd] at h
              rcases ih h with h1 | h1
              · exact Or.inl (List.mem_cons_of_mem a h1)
              · exact Or.inr h1
            · rw [if_neg hd] at h
              rcases List.mem_cons.mp h with h1 | h1
              · exact Or.inr h1
              · rcases ih h1 with h2 | h2
                · exact Or.inl (List.mem_cons_of_mem a h2)
                · exact Or.inr h2
          · rw [if_neg ha] at h
            rcases List.mem_cons.mp h with h1 | h1
            · exact Or.inl (by rw [h1]; exact List.mem_cons_self a (d :: ds))
            · rcases ih h1 with h2 | h2
              · exact Or.inl (List.mem_cons_of_mem a h2)
              · exact Or.inr h2

theorem collapseWs_eq_self {l : List Char} (hch : List.Chain' noSS l)
    (hsp : ∀ c ∈ l, isPySpace c = true → c = ' ') : collapseWs l = l := by
  induction l with
  | nil => rfl
  | cons a as ih =>
      cases as with
      | nil =>
          by_cases ha : isPySpace a = true
          · have := hsp a (List.mem_cons_self a []) ha
            simp [collapseWs, ha, this]
          · simp [collapseWs, ha]
      | cons d ds =>
          rw [collapseWs_cons_cons]
          have hch2 : List.Chain' noSS (d :: ds) := (List.chain'_cons.mp hch).2
          have hnoSS : noSS a d := (List.chain'_cons.mp hch).1
          have hsp2 : ∀ c ∈ d :: ds, isPySpace c = true → c = ' ' :=
            fun c hc => hsp c (List.mem_cons_of_mem a hc)
          by_cases ha : isPySpace a = true
          · rw [if_pos ha]
            have hd : isPySpace d = false := by
              rcases hnoSS with h1 | h1
              · rw [ha] at h1; exact absurd h1 (by simp)
              · exact h1
            rw [if_neg (by simp [hd])]
            have haEq : a = ' ' := hsp a (List.mem_cons_self a (d :: ds)) ha
            rw [haEq, ih hch2 hsp2]
          · rw [if_neg ha]
            rw [ih hch2 hsp2]

/-! ### Chain' preservation and phase identity lemmas -/

theorem chain'_dropWhile {R : Char → Char → Prop} {p : Char → Bool}
    {l : List Char} (h : List.Chain' R l) : List.Chain' R (l.dropWhile p) := by
  induction l with
  | nil => simp
  | cons a as ih =>
      rw [List.dropWhile_cons]
      by_cases hp : p a
      · rw [if_pos hp]
        exact ih ((List.chain'_cons'.mp h).2)
      · rw [if_neg hp]
        exact h

theorem chain'_noSS_reverse {l : List Char} (h : List.Chain' noSS l) :
    List.Chain' noSS l.reverse := by
  rw [List.chain'_reverse]
  exact h.imp (fun a b hab => noSS_symm hab)

theorem stripPy_chain' {l : List Char} (h : List.Chain' noSS l) :
    List.Chain' noSS (stripPy l) := by
  unfold stripPy
  exact chain'_noSS_reverse (chain'_dropWhile (chain'_noSS_reverse (chain'_dropWhile h)))

theorem replaceChar_mem {a : Char} {r l : List Char} {c : Char}
    (h : c ∈ replaceChar a r l) : (c ∈ l ∧ c ≠ a) ∨ c ∈ r := by
  induction l with
  | nil => simp [replaceChar] at h
  | cons b bs ih =>
      unfold replaceChar at h
      rcases List.mem_append.mp h with h1 | h1
      · by_cases hb : b = a
        · rw [if_pos hb] at h1
          exact Or.inr h1
        · rw [if_neg hb] at h1
          simp at h1
          exact Or.inl ⟨by rw [h1]; exact List.mem_cons_self b bs, by rw [h1]; exact hb⟩
      · rcases ih h1 with ⟨h2, h3⟩ | h2
        · exact Or.inl ⟨List.mem_cons_of_mem b h2, h3⟩
        · exact Or.inr h2

theorem replaceChar_eq_self {a : Char} {r l : List Char}
    (h : ∀ c ∈ l, c ≠ a) : replaceChar a r l = l := by
  induction l with
  | nil => rfl
  | cons b bs ih =>
      unfold replaceChar
      rw [if_neg (h b (List.mem_cons_self b bs))]
      rw [ih (fun c hc => h c (List.mem_cons_of_mem b hc))]
      rfl

theorem matchLit_exists {pat : List Char} :
    ∀ {s r : List Char}, matchLit pat s = some r →
      ∀ a ∈ pat, ∃ c ∈ s, charMatchesCI a c = true := by
  induction pat with
  | nil => intro s r _ a ha; simp at ha
  | cons p ps ih =>
      intro s r h a ha
      cases s with
      | nil => simp [matchLit] at h
      | cons c cs =>
          unfold matchLit at h
          by_cases hm : charMatchesCI p c = true
          · rw [if_pos hm] at h
            rcases List.mem_cons.mp ha with h1 | h1
            · exact ⟨c, List.mem_cons_self c cs, by rw [h1]; exact hm⟩
            · obtain ⟨c2, hc2, hm2⟩ := ih h a h1
              exact ⟨c2, List.mem_cons_of_mem c hc2, hm2⟩
          · rw [if_neg hm] at h
            exact absurd h (by simp)

theorem charMatchesCI_underscore {c : Char}
    (h : charMatchesCI '_' c = true) : c = '_' := by
  unfold charMatchesCI at h
  rcases Bool.or_eq_true_iff.mp h with h1 | h1
  · exact eq_of_beq h1
  · simp at h1
    have : ('_').toNat = 95 := by decide
    omega

theorem matchReplyTag_underscore {l r : List Char}
    (h : matchReplyTag l = some r) : '_' ∈ l := by
  unfold matchReplyTag at h
  split at h
  · rename_i rest
    rcases hml : matchLit replyLit (rest.dropWhile isPySpace) with _ | r2
    · rw [hml] at h; exact absurd h (by simp)
    · obtain ⟨c, hc, hm⟩ := matchLit_exists hml '_' (by decide)
      have hcu : c = '_' := charMatchesCI_underscore hm
      rw [hcu] at hc
      have : '_' ∈ rest := mem_of_mem_dropWhile hc
      exact List.mem_cons_of_mem _ (List.mem_cons_of_mem _ this)
  · exact absurd h (by simp)

theorem removeTagsFuel_eq_self :
    ∀ (n : Nat) (l : List Char), '_' ∉ l → removeTagsFuel n l = l := by
  intro n
  induction n with
  | zero => intro l _; cases l <;> rfl
  | succ m ih =>
      intro l hl
      cases l with
      | nil => rfl
      | cons c cs =>
          have hm : matchReplyTag (c :: cs) = none := by
            rcases hmt : matchReplyTag (c :: cs) with _ | rest
            · rfl
            · exact absurd (matchReplyTag_underscore hmt) hl
          unfold removeTagsFuel
          rw [hm]
          rw [ih cs (fun hmem => hl (List.mem_cons_of_mem c hmem))]

theorem removeReplyTags_eq_self {l : List Char} (h : '_' ∉ l) :
    removeReplyTags l = l :=
  removeTagsFuel_eq_self l.length l h

/-! ### Shape of `clean_text` output -/

theorem clean_text_chain' (s : List Char) : List.Chain' noSS (clean_text s) :=
  stripPy_chain' (collapseWs_chain' _)

theorem clean_text_space (s : List Char) :
    ∀ c ∈ clean_text s, isPySpace c = true → c = ' ' := by
  intro c hc
  exact collapseWs_space_mem _ c (mem_of_mem_stripPy hc)

theorem clean_text_drop_left (s : List Char) :
    (clean_text s).dropWhile isPySpace = clean_text s :=
  stripPy_drop_left _

theorem clean_text_drop_right (s : List Char) :
    (clean_text s).reverse.dropWhile isPySpace = (clean_text s).reverse :=
  stripPy_drop_right _

theorem clean_text_mem (s : List Char) :
    ∀ c ∈ clean_text s,
      isMarkdownChar c = false ∧ c ≠ '\n' ∧ c ≠ '—' ∧ c ≠ '–' := by
  intro c hc
  have h1 : c ∈ collapseWs (replaceChar '–' [',', ' ']
      (replaceChar '—' [',', ' ']
        (replaceChar '\n' [' '] (stripMarkdown (removeReplyTags s))))) :=
    mem_of_mem_stripPy hc
  have hpunct : isMarkdownChar ',' = false ∧ isMarkdownChar ' ' = false := by decide
  rcases collapseWs_mem h1 with h2 | h2
  · rcases replaceChar_mem h2 with ⟨h3, hen⟩ | h3
    · rcases replaceChar_mem h3 with ⟨h4, hem⟩ | h4
      · rcases replaceChar_mem h4 with ⟨h5, hnl⟩ | h5
        · have hmd : (!isMarkdownChar c) = true := (List.mem_filter.mp h5).2
          exact ⟨by simpa using hmd, hnl, hem, hen⟩
        · simp at h5
          rw [h5]
          exact ⟨hpunct.2, by decide, by decide, by decide⟩
      · rcases List.mem_cons.mp h4 with h5 | h5
        · rw [h5]; exact ⟨hpunct.1, by decide, by decide, by decide⟩
        · simp at h5; rw [h5]; exact ⟨hpunct.2, by decide, by decide, by decide⟩
    · rcases List.mem_cons.mp h3 with h5 | h5
      · rw [h5]; exact ⟨hpunct.1, by decide, by decide, by decide⟩
      · simp at h5; rw [h5]; exact ⟨hpunct.2, by decide, by decide, by decide⟩
  · rw [h2]
    exact ⟨hpunct.2, by decide, by decide, by decide⟩

theorem clean_text_def (t : List Char) :
    clean_text t = stripPy (collapseWs (replaceChar '–' [',', ' ']
      (replaceChar '—' [',', ' ']
        (replaceChar '\n' [' '] (stripMarkdown (removeReplyTags t)))))) := rfl

/-! ### Claim theorems -/

/-- C5: `clean_text` removes bracketed reply-to tags case-insensitively,
removes every markdown punctuation character of the class, replaces each
em-dash and en-dash with a comma-space, collapses whitespace runs
(including newlines) to single spaces and trims.  Consequently its output
contains none of those characters, every whitespace character in it is a
plain space, no two adjacent characters are both whitespace (so no two
consecutive spaces), and it has no leading or trailing whitespace.  The
function is a total Lean function with no side effects. -/
theorem clean_text_contract (s : List Char) :
    (∀ c ∈ clean_text s,
      isMarkdownChar c = false ∧ c ≠ '\n' ∧ c ≠ '—' ∧ c ≠ '–' ∧
      (isPySpace c = true → c = ' ')) ∧
    List.Chain' noSS (clean_text s) ∧
    (clean_text s).dropWhile isPySpace = clean_text s ∧
    (clean_text s).reverse.dropWhile isPySpace = (clean_text s).reverse ∧
    clean_text "[[Reply_To x]] hi".toList = "hi".toList ∧
    clean_text "a `b* c_ d# e~".toList = "a b c d e".toList ∧
    clean_text "x — y\n z".toList = "x , y z".toList := by
  refine ⟨?_, clean_text_chain' s, clean_text_drop_left s,
    clean_text_drop_right s, by decide, by decide, by decide⟩
  intro c hc
  obtain ⟨h1, h2, h3, h4⟩ := clean_text_mem s c hc
  exact ⟨h1, h2, h3, h4, clean_text_space s c hc⟩

theorem clean_text_contract_witness :
    isMarkdownChar 'h' = false ∧ 'h' ≠ '\n' ∧ 'h' ≠ '—' ∧ 'h' ≠ '–' ∧
      (isPySpace 'h' = true → 'h' = ' ') :=
  (clean_text_contract "[[Reply_To x]] hi".toList).1 'h' (by decide)

/-- C6: `clean_text` is idempotent: applying it to its own output
returns the output unchanged. -/
theorem clean_text_idempotent (s : List Char) :
    clean_text (clean_text s) = clean_text s := by
  have hmem := clean_text_mem s
  have hrt : removeReplyTags (clean_text s) = clean_text s := by
    apply removeReplyTags_eq_self
    intro hu
    exact absurd (hmem '_' hu).1 (by decide)
  have hmd : stripMarkdown (clean_text s) = clean_text s := by
    apply List.filter_eq_self.mpr
    intro c hc
    simp [(hmem c hc).1]
  have hnl : replaceChar '\n' [' '] (clean_text s) = clean_text s :=
    replaceChar_eq_self (fun c hc => (hmem c hc).2.1)
  have hem : replaceChar '—' [',', ' '] (clean_text s) = clean_text s :=
    replaceChar_eq_self (fun c hc => (hmem c hc).2.2.1)
  have hen : replaceChar '–' [',', ' '] (clean_text s) = clean_text s :=
    replaceChar_eq_self (fun c hc => (hmem c hc).2.2.2)
  have hcw : collapseWs (clean_text s) = clean_text s :=
    collapseWs_eq_self (clean_text_chain' s) (clean_text_space s)
  have hst : stripPy (clean_text s) = clean_text s :=
    stripPy_eq_self (clean_text_drop_left s) (clean_text_drop_right s)
  rw [clean_text_def (clean_text s), hrt, hmd, hnl, hem, hen, hcw, hst]

/-- C7: `strip_emoji` deletes exactly the supplementary-plane code
points (U+10000 and above): its output is a subsequence of the input
(original relative order, nothing substituted), every character it keeps
is in the Basic Multilingual Plane, and every BMP character of the input
is kept with its multiplicity. -/
theorem strip_emoji_correct (l : List Char) :
    (strip_emoji l).Sublist l ∧
    (∀ c ∈ strip_emoji l, c.toNat < 65536) ∧
    (∀ c : Char, c.toNat < 65536 → (strip_emoji l).count c = l.count c) := by
  refine ⟨List.filter_sublist l, ?_, ?_⟩
  · intro c hc
    have := (List.mem_filter.mp hc).2
    exact of_decide_eq_true this
  · intro c hbmp
    exact List.count_filter (by simpa using hbmp)

theorem strip_emoji_correct_witness :
    (strip_emoji ['a', '𝄞']).count 'a' = (['a', '𝄞'] : List Char).count 'a' :=
  (strip_emoji_correct ['a', '𝄞']).2.2 'a' (by decide)

/-- C10: running `strip_emoji` before the ASCII coercion is redundant:
dropping non-ASCII characters from `strip_emoji l` gives exactly the
same string as dropping them from `l` directly, because every
supplementary-plane character is itself non-ASCII. -/
theorem strip_emoji_before_ascii_redundant (l : List Char) :
    asciiDrop (strip_emoji l) = asciiDrop l := by
  unfold asciiDrop strip_emoji
  rw [List.filter_filter]
  apply List.filter_congr
  intro c _
  by_cases h : c.toNat ≤ 127
  · have : c.toNat < 65536 := by omega
    simp [h, this]
  · simp [h]

/-- C4 counterexample: on the example input given in the spec the pipeline
normalization yields "caf  test" (with two spaces, because the BMP
character U+2615 is dropped by the ASCII coercion only after whitespace
was collapsed), not the claimed "caf test". -/
theorem ascii_coercion_example_refuted :
    normalize_reply "café ☕ test".toList = "caf  test".toList ∧
    "caf  test".toList ≠ "caf test".toList := by
  constructor
  · decide
  · decide

/-- C4 amended: the coercion output contains only ASCII characters and
every non-ASCII character is dropped without any substituted character
(the ASCII coercion is a pure subsequence filter); on the input
"café ☕ test" the pipeline yields "caf  test" (two spaces), not
"caf test". -/
theorem ascii_coercion_drops (l : List Char) :
    (∀ c ∈ normalize_reply l, c.toNat ≤ 127) ∧
    (normalize_reply l).Sublist (strip_emoji (clean_text l)) ∧
    asciiDrop l = l.filter (fun c => decide (c.toNat ≤ 127)) ∧
    normalize_reply "café ☕ test".toList = "caf  test".toList := by
  refine ⟨?_, List.filter_sublist _, rfl, by decide⟩
  intro c hc
  have := (List.mem_filter.mp hc).2
  exact of_decide_eq_true this

theorem ascii_coercion_drops_witness :
    ('c').toNat ≤ 127 :=
  (ascii_coercion_drops "café ☕ test".toList).1 'c' (by decide)

theorem find_select_eq_spec (ps : List Payload) :
    (match ps.find? (fun p => !(entryText p).isEmpty) with
     | some p => entryText p
     | none => fallbackReply) = selectReplySpec ps := by
  induction ps with
  | nil => rfl
  | cons p ps ih =>
      by_cases h : (entryText p).isEmpty = true
      · have hp : (!(entryText p).isEmpty) = false := by simp [h]
        simp only [List.find?_cons, hp, selectReplySpec, h, if_true]
        exact ih
      · have h' : (entryText p).isEmpty = false := Bool.eq_false_iff.mpr h
        have hp : (!(entryText p).isEmpty) = true := by simp [h']
        simp only [List.find?_cons, hp, selectReplySpec, h', if_false]
        simp

/-- The concrete payload list of the reply-selection example in the spec. -/
def examplePayloads : List Payload :=
  [⟨some "".toList⟩, ⟨some "  ".toList⟩, ⟨some "hello".toList⟩,
    ⟨some "world".toList⟩]

/-- C1: the selected reply is the trimmed text of the first payload
whose text is non-empty after trimming (so `select_reply` refines the
spec-worded `selectReplySpec`); on the example list the selection is
"hello"; and whenever the result key is missing, the payload list is
missing or empty, or no entry trims to non-empty text, the selection is
exactly the fixed fallback string. -/
theorem select_reply_correct :
    (∀ d : AgentData, select_reply d = selectReplySpec (payloadsOf d)) ∧
    select_reply ⟨some ⟨some examplePayloads⟩⟩ = "hello".toList ∧
    select_reply ⟨none⟩ = fallbackReply ∧
    select_reply ⟨some ⟨none⟩⟩ = fallbackReply ∧
    select_reply ⟨some ⟨some []⟩⟩ = fallbackReply ∧
    (∀ ps : List Payload, (∀ p ∈ ps, (entryText p).isEmpty = true) →
      select_reply ⟨some ⟨some ps⟩⟩ = fallbackReply) := by
  refine ⟨?_, by decide, by decide, by decide, by decide, ?_⟩
  · intro d
    exact find_select_eq_spec (payloadsOf d)
  · intro ps h
    have hf : ps.find? (fun p => !(entryText p).isEmpty) = none :=
      List.find?_eq_none.mpr (fun x hx => by simp [h x hx])
    show (match ps.find? (fun p => !(entryText p).isEmpty) with
          | some p => entryText p
          | none => fallbackReply) = fallbackReply
    rw [hf]

theorem select_reply_correct_witness :
    select_reply ⟨some ⟨some [⟨some "  ".toList⟩]⟩⟩ = fallbackReply :=
  select_reply_correct.2.2.2.2.2 [⟨some "  ".toList⟩] (by decide)

/-- C3: the quality gate rejects a transcript exactly when it is empty,
or has no ASCII-alphanumeric character, or has fewer than two
whitespace-delimited tokens; it rejects "", "???" and "ok" and accepts
"turn on lights". -/
theorem quality_gate_correct :
    (∀ t : List Char, quality_reject t = true ↔
      (t = [] ∨ (∀ c ∈ t, isAsciiAlnum c = false) ∨ (pySplit t).length < 2)) ∧
    quality_reject "".toList = true ∧
    quality_reject "???".toList = true ∧
    quality_reject "ok".toList = true ∧
    quality_reject "turn on lights".toList = false := by
  refine ⟨?_, by decide, by decide, by decide, by decide⟩
  intro t
  unfold quality_reject
  simp [Bool.or_eq_true, List.isEmpty_iff, List.any_eq_false,
    decide_eq_true_iff, Bool.not_eq_true]
  exact or_assoc

theorem quality_gate_correct_witness :
    quality_reject "ok".toList = true :=
  (quality_gate_correct.1 "ok".toList).mpr (Or.inr (Or.inr (by decide)))

/-- A trivial stand-in for `json.loads` that always decodes to a
response with no `result` object. -/
def parseTrivial : List Char → Option AgentData := fun _ => some ⟨none⟩

/-- A bridge result with exit status 0 and non-empty stdout. -/
def okBridgeResult : BridgeResult := ⟨0, ['j'], []⟩

/-- A stand-in for `json.loads` that always fails to parse. -/
def parseFailing : List Char → Option AgentData := fun _ => none

/-- A bridge result with non-zero exit status. -/
def failedBridgeResult : BridgeResult :=
  ⟨1, ['x'], ['b', 'o', 'o', 'm']⟩

/-- C2: a non-zero bridge exit status, empty stdout, and a JSON parse
failure are three distinct conditions; each produces exactly its own
diagnostic report (with stderr and stdout snippets truncated to 1200
characters when non-empty), invokes neither synthesis nor playback that
turn, and continues the loop to the next user cue. -/
theorem turn_bridge_failure_aborts (parse : List Char → Option AgentData)
    (r : BridgeResult) (e : Int) :
    (r.returncode ≠ 0 →
      turn parse r e = ([TurnStep.reportBridgeFailure (stderrSnipA r)], LoopCtl.next) ∧
      invokesSynthOrPlay (turn parse r e).1 = false) ∧
    (r.returncode = 0 → r.stdout.isEmpty = true →
      turn parse r e = ([TurnStep.reportEmptyStdout (stderrSnipB r)], LoopCtl.next) ∧
      invokesSynthOrPlay (turn parse r e).1 = false) ∧
    (r.returncode = 0 → r.stdout.isEmpty = false → parse r.stdout = none →
      turn parse r e =
        ([TurnStep.reportMalformed (r.stdout.take 1200) (stderrSnipB r)], LoopCtl.next) ∧
      invokesSynthOrPlay (turn parse r e).1 = false) ∧
    (∀ d1 d2 o2 e2 : List Char,
      TurnStep.reportBridgeFailure d1 ≠ TurnStep.reportEmptyStdout d2 ∧
      TurnStep.reportBridgeFailure d1 ≠ TurnStep.reportMalformed o2 e2 ∧
      TurnStep.reportEmptyStdout d1 ≠ TurnStep.reportMalformed o2 e2) := by
  refine ⟨?_, ?_, ?_, ?_⟩
  · intro h
    have ht : turn parse r e =
        ([TurnStep.reportBridgeFailure (stderrSnipA r)], LoopCtl.next) := by
      unfold turn
      rw [if_pos h]
    exact ⟨ht, by rw [ht]; rfl⟩
  · intro h0 hempty
    have ht : turn parse r e =
        ([TurnStep.reportEmptyStdout (stderrSnipB r)], LoopCtl.next) := by
      unfold turn
      rw [if_neg (by simp [h0]), if_pos hempty]
    exact ⟨ht, by rw [ht]; rfl⟩
  · intro h0 hne hparse
    have ht : turn parse r e =
        ([TurnStep.reportMalformed (r.stdout.take 1200) (stderrSnipB r)],
          LoopCtl.next) := by
      unfold turn
      rw [if_neg (by simp [h0]), if_neg (by simp [hne]), hparse]
    exact ⟨ht, by rw [ht]; rfl⟩
  · intro d1 d2 o2 e2
    exact ⟨by simp, by simp, by simp⟩

theorem turn_bridge_failure_aborts_witness :
    turn parseFailing failedBridgeResult 0 =
      ([TurnStep.reportBridgeFailure (stderrSnipA failedBridgeResult)], LoopCtl.next) ∧
    invokesSynthOrPlay (turn parseFailing failedBridgeResult 0).1 = false :=
  (turn_bridge_failure_aborts parseFailing failedBridgeResult 0).1 (by decide)

/-- C8 counterexample: with a successful bridge turn and a failing
synthesis invocation (exit status 1), the turn still performs playback
and reports no failure: the code runs `edge-tts` with `check=False`,
discards its result, and calls playback unconditionally. -/
theorem synthesis_failure_still_plays :
    (1 : Int) ≠ 0 ∧
    TurnStep.playback ∈ (turn parseTrivial okBridgeResult 1).1 ∧
    (turn parseTrivial okBridgeResult 1).1.all (fun s => !isReportStep s) = true := by
  have ht : (turn parseTrivial okBridgeResult 1).1 =
      [TurnStep.synthesize (spokenOf (normalize_reply (select_reply ⟨none⟩))),
        TurnStep.playback] := rfl
  refine ⟨by decide, ?_, ?_⟩
  · rw [ht]
    exact List.mem_cons_of_mem _ (List.mem_cons_self _ _)
  · rw [ht]
    rfl

/-- C8 amended: playback is attempted unconditionally whenever the turn
reaches synthesis; the synthesis exit status is never consulted (the
subprocess is run with `check=False` and its result discarded), so the
steps of the turn are the same for every synthesis exit status and playback
follows synthesis even when synthesis fails. -/
theorem playback_unconditional (parse : List Char → Option AgentData)
    (r : BridgeResult) (d : AgentData) (e : Int)
    (h0 : r.returncode = 0) (hne : r.stdout.isEmpty = false)
    (hparse : parse r.stdout = some d) :
    (turn parse r e).1 =
      [TurnStep.synthesize (spokenOf (normalize_reply (select_reply d))),
        TurnStep.playback] ∧
    TurnStep.playback ∈ (turn parse r e).1 ∧
    (∀ e2 : Int, turn parse r e = turn parse r e2) := by
  have ht : (turn parse r e).1 =
      [TurnStep.synthesize (spokenOf (normalize_reply (select_reply d))),
        TurnStep.playback] := by
    unfold turn
    rw [if_neg (by simp [h0]), if_neg (by simp [hne]), hparse]
  refine ⟨ht, ?_, fun e2 => rfl⟩
  rw [ht]
  exact List.mem_cons_of_mem _ (List.mem_cons_self _ _)

theorem playback_unconditional_witness :
    (turn parseTrivial okBridgeResult 1).1 =
      [TurnStep.synthesize (spokenOf (normalize_reply (select_reply ⟨none⟩))),
        TurnStep.playback] ∧
    TurnStep.playback ∈ (turn parseTrivial okBridgeResult 1).1 ∧
    (∀ e2 : Int, turn parseTrivial okBridgeResult 1 = turn parseTrivial okBridgeResult e2) :=
  playback_unconditional parseTrivial okBridgeResult ⟨none⟩ 1 rfl rfl rfl

/-- C9: the text handed to TTS synthesis is exactly the first 500
characters of the normalized reply: the synthesize step carries
`spokenOf` of the normalized reply, `spokenOf` is `take 500`, a reply of
at most 500 characters is passed whole, and a 600-character reply is cut
to exactly 500 characters. -/
theorem synthesis_truncation (parse : List Char → Option AgentData)
    (r : BridgeResult) (d : AgentData) (e : Int)
    (h0 : r.returncode = 0) (hne : r.stdout.isEmpty = false)
    (hparse : parse r.stdout = some d) :
    (turn parse r e).1 =
      [TurnStep.synthesize (spokenOf (normalize_reply (select_reply d))),
        TurnStep.playback] ∧
    (∀ l : List Char, spokenOf l = l.take 500) ∧
    (∀ l : List Char, l.length ≤ 500 → spokenOf l = l) ∧
    (∀ l : List Char, l.length = 600 → (spokenOf l).length = 500) := by
  have ht : (turn parse r e).1 =
      [TurnStep.synthesize (spokenOf (normalize_reply (select_reply d))),
        TurnStep.playback] := by
    unfold turn
    rw [if_neg (by simp [h0]), if_neg (by simp [hne]), hparse]
  refine ⟨ht, fun l => rfl, fun l h => List.take_of_length_le h, ?_⟩
  intro l h
  unfold spokenOf
  rw [List.length_take, h]
  omega

theorem synthesis_truncation_witness :
    (turn parseTrivial okBridgeResult 0).1 =
      [TurnStep.synthesize (spokenOf (normalize_reply (select_reply ⟨none⟩))),
        TurnStep.playback] ∧
    (spokenOf (List.replicate 600 'a')).length = 500 := by
  have h := synthesis_truncation parseTrivial okBridgeResult ⟨none⟩ 0 rfl rfl rfl
  exact ⟨h.1, h.2.2.2 (List.replicate 600 'a') (List.length_replicate 600 'a')⟩
